import Mathlib

/-!
Shallow embedding of the Scrapbox-Duplicator incremental sync pipeline.

The repository contains two checkpointed, batched pipeline variants:
* the Deno variant (`src/unnamed/part_000`, first program): `main`,
  `filterPrivateIconPages`, `getLastImportTime`, and a batched
  `importPagesToProject` built on an async `Array.prototype.reduce`;
* the Effect/Bun variant (`src/index.ts`, second program, plus
  `src/pages.ts`): `mainEffect`, `filterPrivateIconPages`,
  `getLastImportTimeEffect`, and a batched `importPagesToProject` built on
  `processBatchesEffect`.

Pure functions are embedded as Lean functions; the effectful import loop is
embedded as a function returning the list of I/O events it performs (the
remote import calls and pacing sleeps) together with the error, if any, that the
surrounding Effect/promise chain observes. Timestamps are JS numbers holding
integral second counts; they are embedded as `Int` (`Option Int` where NaN is
possible, with `none` playing NaN).
-/

namespace ScrapboxDup

/-- A line of a page. The pipeline only ever inspects `text`; the Effect
variant's line records additionally carry `created`/`updated` timestamps. -/
structure Line where
  text : String
  created : Int
  updated : Int
deriving DecidableEq

/-- A page snapshot: `title`, ordered `lines`, and the last-modified
timestamp `updated` that change selection filters on. -/
structure Page where
  title : String
  lines : List Line
  updated : Int
deriving DecidableEq

/-- The configuration read at startup (`getConfig` / `getConfigEffect`). -/
structure Config where
  sid : String
  exportingProjectName : String
  importingProjectName : String

/-- Constant `BATCH_SIZE = 100` (src/pages.ts line 13, src/unnamed/part_000
line 17). -/
def BATCH_SIZE : Nat := 100

/-- Constant `INITIAL_IMPORT_TIME = 1745842021` (src/index.ts line 16). -/
def INITIAL_IMPORT_TIME : Int := 1745842021

/-- JS `String.prototype.includes`: `s.includes(sub)` is true exactly when
`sub` occurs as a contiguous substring of `s`, at any position. -/
def stringIncludes (s sub : String) : Bool :=
  decide (sub.toList <:+: s.toList)

/-- Function `isIncludedIcon` (src/index.ts lines 85-87): given an icon string,
tests whether some line's text contains it, short-circuiting on the first
match (`Array.prototype.some`). -/
def isIncludedIcon (icon : String) (lines : List Line) : Bool :=
  lines.any (fun line => stringIncludes line.text icon)

/-- Function `filterPrivateIconPages` (src/index.ts lines 81-83): keeps exactly the
pages none of whose lines contain `"[private.icon]"`. -/
def filterPrivateIconPages (pages : List Page) : List Page :=
  pages.filter (fun p => !(isIncludedIcon "[private.icon]" p.lines))

/-- The change selection step inlined in `main` / `mainEffect`
(src/index.ts lines 28 and 169):
`filteredPages.filter(p => p.updated > lastImportTime)`. The spec names
this operation `selectChanges`. -/
def selectChanges (pages : List Page) (lastImportTime : Int) : List Page :=
  pages.filter (fun p => decide (lastImportTime < p.updated))

/-- Expression `Math.max(...newPages.map(p => p.updated))` (src/index.ts
lines 40 and 184). `Math.max` folds binary max over its arguments; the call sites guard
against the empty list, on which JS would yield `-Infinity` (the `[]` value
here is never reached by the pipeline). -/
def maxUpdated : List Page → Int
  | [] => 0
  | p :: ps => (ps.map Page.updated).foldl max p.updated

/-- The batch partition (src/pages.ts lines 137-140, src/unnamed/part_000
lines 102-105):
`Array.from({length: Math.ceil(items.length / batchSize)},
(_, i) => items.slice(i * batchSize, (i + 1) * batchSize))`.
For `batchSize > 0`, `Math.ceil` of the float quotient equals Nat ceiling
division `(n + batchSize - 1) / batchSize`, and
`slice(i*b, (i+1)*b)` equals `drop (i*b)` then `take b`. -/
def mkBatches {α : Type} (items : List α) (batchSize : Nat) : List (List α) :=
  (List.range ((items.length + batchSize - 1) / batchSize)).map
    (fun i => (items.drop (i * batchSize)).take batchSize)

/-- Observable I/O events of the import loop. `importCall project batch`
stands for one `importPages` invocation: obtaining the CSRF token via
`getProfile` and posting the multipart payload for `batch` (src/pages.ts
lines 55-100) — no CSRF token is fetched and no upload happens outside such
an event. `sleep1s` is the 1-second pacing delay. -/
inductive Ev where
  | importCall (project : String) (batch : List Page) : Ev
  | sleep1s : Ev
deriving DecidableEq

/-- The typed failure of `importPages` (src/pages.ts lines 93-98): a
message and the destination project name. It carries no batch ordinal. -/
structure ImportError where
  message : String
  project : String
deriving DecidableEq

/-- The per-batch `processFunc` passed to `processBatchesEffect` by
`importPagesToProject` (src/pages.ts lines 32-48), with the remote outcome
of the batch-number-indexed import call supplied by `outcome` (`none` =
success, `some msg` = the call failed with `msg`). On success it pays the
pacing delay when `batchNumber < totalBatches`; on failure the Effect
fails with an `ImportError`. -/
def importBatchStep (project : String) (outcome : Nat → Option String)
    (batch : List Page) (batchNumber totalBatches : Nat) :
    List Ev × Option ImportError :=
  match outcome batchNumber with
  | some msg => ([Ev.importCall project batch], some ⟨msg, project⟩)
  | none =>
      (Ev.importCall project batch ::
        (if batchNumber < totalBatches then [Ev.sleep1s] else []), none)

/-- The sequential loop of `processBatchesEffect` (src/pages.ts lines
142-149): run `processFunc` on each batch in order with its 1-based number;
a failing step aborts the loop and surfaces that step's error. -/
def goBatches {α E : Type}
    (processFunc : List α → Nat → Nat → List Ev × Option E)
    (total : Nat) : List (List α) → Nat → List Ev × Option E
  | [], _ => ([], none)
  | b :: rest, idx =>
      let r := processFunc b (idx + 1) total
      match r.2 with
      | some e => (r.1, some e)
      | none =>
          let t := goBatches processFunc total rest (idx + 1)
          (r.1 ++ t.1, t.2)

/-- Function `processBatchesEffect` (src/pages.ts lines 128-150): partition `items`
with `mkBatches` and run the sequential loop. -/
def processBatchesEffect {α E : Type} (items : List α) (batchSize : Nat)
    (processFunc : List α → Nat → Nat → List Ev × Option E) :
    List Ev × Option E :=
  goBatches processFunc (mkBatches items batchSize).length
    (mkBatches items batchSize) 0

/-- Function `importPagesToProject` (src/pages.ts lines 14-53): empty input returns
immediately with no I/O; otherwise the pages are imported through
`processBatchesEffect` in batches of `BATCH_SIZE`. -/
def importPagesToProject (importingProjectName : String)
    (pages : List Page) (_sid : String) (outcome : Nat → Option String) :
    List Ev × Option ImportError :=
  if pages.length = 0 then ([], none)
  else
    processBatchesEffect pages BATCH_SIZE
      (importBatchStep importingProjectName outcome)

/-- The observable outcome of one orchestrator run: the I/O events of
the import path, the error surfaced (if any), and the checkpoint value written
at the end (if any). -/
structure RunResult where
  events : List Ev
  error : Option ImportError
  written : Option Int
deriving DecidableEq

/-- Function `mainEffect` (src/index.ts lines 160-186) after the export step:
filter, select against the checkpoint read at the start (`lastImportTime`),
stop successfully when the delta is empty, otherwise import in batches and
— only when that succeeded — write `Math.max` of the delta's `updated`
values as the new checkpoint. -/
def mainEffect (config : Config) (pages : List Page)
    (lastImportTime : Int) (outcome : Nat → Option String) : RunResult :=
  let filteredPages := filterPrivateIconPages pages
  let newPages := selectChanges filteredPages lastImportTime
  if newPages.length = 0 then ⟨[], none, none⟩
  else
    let r := importPagesToProject config.importingProjectName newPages
      config.sid outcome
    match r.2 with
    | some e => ⟨r.1, some e, none⟩
    | none => ⟨r.1, none, some (maxUpdated newPages)⟩

/-- The batch loop of the Deno variant's `importPagesToProject`
(src/unnamed/part_000 lines 108-133), an async `reduce` over the batches.
When a batch's import fails, the callback `return`s the annotated error
object instead of throwing it, so the reduce's accumulator promise still
resolves: the loop continues with the next batch (skipping only that
iteration's pacing delay), and no error ever escapes the loop. On success
the pacing delay is paid when `index < batches.length - 1`. -/
def part000BatchLoop (project : String) (outcome : Nat → Option String)
    (total : Nat) : List (List Page) → Nat → List Ev
  | [], _ => []
  | b :: rest, idx =>
      (match outcome (idx + 1) with
        | some _ => [Ev.importCall project b]
        | none =>
            Ev.importCall project b ::
              (if idx < total - 1 then [Ev.sleep1s] else [])) ++
        part000BatchLoop project outcome total rest (idx + 1)

/-- The Deno variant's `importPagesToProject` (src/unnamed/part_000 lines
90-136): empty input returns at once; otherwise the reduce-based loop runs
over `mkBatches pages BATCH_SIZE` and always resolves (see
`part000BatchLoop`): the function never rejects. -/
def part000ImportPagesToProject (config : Config) (pages : List Page)
    (outcome : Nat → Option String) : List Ev :=
  if pages.length = 0 then []
  else
    part000BatchLoop config.importingProjectName outcome
      (mkBatches pages BATCH_SIZE).length (mkBatches pages BATCH_SIZE) 0

/-- The Deno variant's `main` (src/unnamed/part_000 lines 23-46) after the
export step: identical orchestration to `mainEffect`, but built on the
reduce-based importer, which never rejects — so the checkpoint write at
line 41 runs whenever the delta is non-empty. -/
def part000Main (config : Config) (pages : List Page)
    (lastImportTime : Int) (outcome : Nat → Option String) : RunResult :=
  let filteredPages := filterPrivateIconPages pages
  let newPages := selectChanges filteredPages lastImportTime
  if newPages.length = 0 then ⟨[], none, none⟩
  else
    ⟨part000ImportPagesToProject config newPages outcome, none,
      some (maxUpdated newPages)⟩

/-- JS `parseInt(s, 10)` (ECMA-262): skip leading whitespace, an optional
sign, then take the longest prefix of decimal digits; yield NaN (`none`
here) when that prefix is empty. It never throws. -/
def parseIntCore (sign : Int) (cs : List Char) : Option Int :=
  let ds := cs.takeWhile Char.isDigit
  if ds.isEmpty then none
  else some (sign * (ds.foldl (fun acc c => acc * 10 + (c.toNat - 48)) 0 : Nat))

/-- JS `parseInt(s, 10)`, see `parseIntCore`. -/
def parseIntJS (s : String) : Option Int :=
  match s.toList.dropWhile Char.isWhitespace with
  | '-' :: rest => parseIntCore (-1) rest
  | '+' :: rest => parseIntCore 1 rest
  | rest => parseIntCore 1 rest

/-- Function `getLastImportTime` (src/index.ts lines 112-121). Input: the outcome of
reading `last_import.txt` (`none` = the read threw, e.g. file absent;
`some content` = the file's text). Output: the watermark value returned
(`none` standing for NaN) and the checkpoint value persisted by the call,
if any. The `catch` branch fires only when the read throws: `parseInt`
itself never throws, so unparsable content yields NaN and triggers no
recovery. `getLastImportTimeEffect` (src/index.ts lines 213-232) behaves
identically. -/
def getLastImportTime (readResult : Option String) :
    Option Int × Option Int :=
  match readResult with
  | none => (some INITIAL_IMPORT_TIME, some INITIAL_IMPORT_TIME)
  | some content => (parseIntJS content, none)

/-- Modelled from the spec (§4.3): the event trace the Batch Importer should
produce on an all-success run — one import call per batch, in partition
order, with a pacing sleep after every batch except the last. Used as the
refinement target for the pacing claim. -/
def specPacedTrace (project : String) : List (List Page) → List Ev
  | [] => []
  | [b] => [Ev.importCall project b]
  | b :: b2 :: rest =>
      Ev.importCall project b :: Ev.sleep1s ::
        specPacedTrace project (b2 :: rest)

/-- Extracts the batch of an import-call event; used to state that
the import calls of a trace are exactly the batches, in order. -/
def evBatch : Ev → Option (List Page)
  | Ev.importCall _ batch => some batch
  | Ev.sleep1s => none

/-! Helper lemmas -/

/-- Flattening `k` successive `drop`/`take` windows of width `B` recovers the
original list once `k * B` covers its length. -/
theorem flatten_take_drop {α : Type} (B : Nat) :
    ∀ (k : Nat) (P : List α), P.length ≤ k * B →
      ((List.range k).map (fun i => (P.drop (i * B)).take B)).flatten = P := by
  intro k
  induction k with
  | zero =>
      intro P hP
      simp only [Nat.zero_mul, Nat.le_zero, List.length_eq_zero] at hP
      simp [hP]
  | succ k ih =>
      intro P hP
      rw [List.range_succ_eq_map, List.map_cons, List.map_map,
        List.flatten_cons]
      have hsh : ∀ i : Nat,
          ((fun i => (P.drop (i * B)).take B) ∘ Nat.succ) i =
            (fun i => ((P.drop B).drop (i * B)).take B) i := by
        intro i
        simp only [Function.comp_apply]
        rw [List.drop_drop, Nat.succ_mul, Nat.add_comm]
      rw [List.map_congr_left (fun i _ => hsh i)]
      have hlen : (P.drop B).length ≤ k * B := by
        rw [List.length_drop]
        have h2 : P.length ≤ k * B + B := by
          rw [Nat.succ_mul] at hP
          exact hP
        generalize k * B = m at h2 ⊢
        omega
      rw [ih (P.drop B) hlen]
      simp [List.take_append_drop]

/-- Every list is at most `B` times its own ceiling quotient long. -/
theorem length_le_ceil_mul (n B : Nat) (hB : 0 < B) :
    n ≤ ((n + B - 1) / B) * B := by
  have h := le_smul_ceilDiv (α := Nat) (β := Nat) hB (b := n)
  rw [smul_eq_mul] at h
  calc n ≤ B * (n ⌈/⌉ B) := h
    _ = ((n + B - 1) / B) * B := Nat.mul_comm _ _

/-! C2 -/

/-- C2: for every non-empty page list `P` and batch size `B > 0`,
`mkBatches` yields exactly `⌈|P| / B⌉` contiguous batches, each of size at
most `B`, every batch before the final one of size exactly `B`, and the
concatenation of the batches in order is `P` itself — no element lost,
duplicated, or reordered. -/
theorem mkBatches_partition {α : Type} (P : List α) (B : Nat)
    (hP : P ≠ []) (hB : 0 < B) :
    (mkBatches P B).length = P.length ⌈/⌉ B ∧
    (∀ b ∈ mkBatches P B, b.length ≤ B) ∧
    (∀ i, i + 1 < (mkBatches P B).length →
      ((mkBatches P B).getD i []).length = B) ∧
    (mkBatches P B).flatten = P := by
  refine ⟨?_, ?_, ?_, ?_⟩
  · simp [mkBatches]
    rfl
  · intro b hb
    simp only [mkBatches, List.mem_map, List.mem_range] at hb
    obtain ⟨i, _, rfl⟩ := hb
    rw [List.length_take]
    exact min_le_left _ _
  · intro i hi
    have hlen : (mkBatches P B).length = (P.length + B - 1) / B := by
      simp [mkBatches]
    have hklen : (P.length + B - 1) / B * B ≤ P.length + B - 1 :=
      Nat.div_mul_le_self _ _
    have hgd : (mkBatches P B).getD i [] = (P.drop (i * B)).take B := by
      rw [mkBatches, List.getD_eq_getElem?_getD, List.getElem?_map,
        List.getElem?_range (by
          rw [mkBatches] at hi
          simp only [List.length_map, List.length_range] at hi
          omega)]
      rfl
    rw [hgd, List.length_take, List.length_drop]
    rw [hlen] at hi
    have hmul : (i + 2) * B ≤ (P.length + B - 1) / B * B :=
      Nat.mul_le_mul_right B (by omega)
    rw [Nat.add_mul] at hmul
    generalize (P.length + B - 1) / B * B = c at hklen hmul
    generalize i * B = a at hmul ⊢
    omega
  · exact flatten_take_drop B _ P (length_le_ceil_mul P.length B hB)

/-- C2 witness: the theorem applied to the list `[1, 2, 3]` with batch size
`2`. -/
theorem mkBatches_partition_witness :
    ([1, 2, 3] : List Nat) ≠ [] ∧ 0 < 2 ∧
    ((mkBatches ([1, 2, 3] : List Nat) 2).length =
        ([1, 2, 3] : List Nat).length ⌈/⌉ 2 ∧
      (∀ b ∈ mkBatches ([1, 2, 3] : List Nat) 2, b.length ≤ 2) ∧
      (∀ i, i + 1 < (mkBatches ([1, 2, 3] : List Nat) 2).length →
        ((mkBatches ([1, 2, 3] : List Nat) 2).getD i []).length = 2) ∧
      (mkBatches ([1, 2, 3] : List Nat) 2).flatten = [1, 2, 3]) :=
  ⟨by decide, by decide, mkBatches_partition [1, 2, 3] 2 (by decide) (by decide)⟩

/-! C3 -/

/-- C3: change selection returns exactly the pages of `P` whose `updated`
is strictly greater than `c` (so a page with `updated = c` is omitted),
with exact multiplicity, in the original input order (a sublist of `P`),
and re-applying the selection to its own output with the same `c` is the
identity. -/
theorem selectChanges_correct (P : List Page) (c : Int) :
    (selectChanges P c).Sublist P ∧
    (∀ p, p ∈ selectChanges P c ↔ p ∈ P ∧ c < p.updated) ∧
    (∀ p, List.count p (selectChanges P c) =
      if c < p.updated then List.count p P else 0) ∧
    (∀ p ∈ P, p.updated = c → p ∉ selectChanges P c) ∧
    selectChanges (selectChanges P c) c = selectChanges P c := by
  refine ⟨List.filter_sublist P, ?_, ?_, ?_, ?_⟩
  · intro p
    simp [selectChanges, List.mem_filter]
  · intro p
    by_cases h : c < p.updated
    · rw [if_pos h]
      exact List.count_filter (by simp [h])
    · rw [if_neg h, List.count_eq_zero]
      intro hmem
      rw [selectChanges, List.mem_filter] at hmem
      exact h (by simpa using hmem.2)
  · intro p _ hupd hmem
    rw [selectChanges, List.mem_filter] at hmem
    have : c < p.updated := by simpa using hmem.2
    omega
  · rw [selectChanges, selectChanges, List.filter_filter]
    simp

/-! C5 -/

/-- C5: the exclusion filter removes exactly the pages some of whose
lines' text contains the marker `"[private.icon]"` as a substring
(position-independent), keeps every other page with exact multiplicity
(the kept page objects are the originals), and preserves the relative
order of the kept pages (the output is a sublist of the input). -/
theorem filterPrivateIconPages_correct (P : List Page) :
    (filterPrivateIconPages P).Sublist P ∧
    (∀ p, p ∈ filterPrivateIconPages P ↔
      p ∈ P ∧ ∀ line ∈ p.lines,
        ¬ ("[private.icon]".toList <:+: line.text.toList)) ∧
    (∀ p, (∃ line ∈ p.lines,
        "[private.icon]".toList <:+: line.text.toList) →
      p ∉ filterPrivateIconPages P) ∧
    (∀ p, List.count p (filterPrivateIconPages P) =
      if ∀ line ∈ p.lines, ¬ ("[private.icon]".toList <:+: line.text.toList)
      then List.count p P else 0) := by
  refine ⟨List.filter_sublist P, ?_, ?_, ?_⟩
  · intro p
    simp [filterPrivateIconPages, List.mem_filter, isIncludedIcon,
      stringIncludes, List.any_eq_true]
  · intro p hex hmem
    rw [filterPrivateIconPages, List.mem_filter] at hmem
    have h2 := hmem.2
    simp only [isIncludedIcon, stringIncludes, Bool.not_eq_true',
      List.any_eq_false, decide_eq_true_eq] at h2
    obtain ⟨line, hline, hinf⟩ := hex
    exact h2 line hline hinf
  · intro p
    by_cases h : ∀ line ∈ p.lines,
        ¬ ("[private.icon]".toList <:+: line.text.toList)
    · rw [if_pos h]
      refine List.count_filter ?_
      simp only [isIncludedIcon, stringIncludes, Bool.not_eq_true',
        List.any_eq_false, decide_eq_true_eq]
      exact h
    · rw [if_neg h, List.count_eq_zero]
      intro hmem
      rw [filterPrivateIconPages, List.mem_filter] at hmem
      have h2 := hmem.2
      simp only [isIncludedIcon, stringIncludes, Bool.not_eq_true',
        List.any_eq_false, decide_eq_true_eq] at h2
      exact h h2

/-- The batch loop of `processBatchesEffect`, instantiated with the import
step, succeeds exactly when every import call it would issue succeeds. -/
theorem goBatches_isNone (project : String) (outcome : Nat → Option String)
    (total : Nat) (bs : List (List Page)) :
    ∀ idx : Nat,
      (goBatches (importBatchStep project outcome) total bs idx).2.isNone =
        (List.range' (idx + 1) bs.length).all
          (fun n => (outcome n).isNone) := by
  induction bs with
  | nil => intro idx; simp [goBatches]
  | cons b rest ih =>
      intro idx
      simp only [goBatches, importBatchStep, List.length_cons,
        List.range'_succ, List.all_cons]
      cases houtcome : outcome (idx + 1) with
      | some msg => simp
      | none => simp [ih (idx + 1)]

/-- The batch loop with an all-success oracle produces exactly the paced
trace: the batches in order, one import call each, a pacing sleep between
consecutive batches and none after the last. -/
theorem goBatches_all_ok (project : String) (outcome : Nat → Option String)
    (hok : ∀ n, outcome n = none) (bs : List (List Page)) :
    ∀ idx : Nat,
      goBatches (importBatchStep project outcome) (idx + bs.length) bs idx =
        (specPacedTrace project bs, none) := by
  induction bs with
  | nil => intro idx; simp [goBatches, specPacedTrace]
  | cons b rest ih =>
      intro idx
      simp only [goBatches, importBatchStep, hok (idx + 1)]
      cases rest with
      | nil => simp [goBatches, specPacedTrace]
      | cons b2 rs =>
          have harith : idx + (b :: b2 :: rs).length =
              (idx + 1) + (b2 :: rs).length := by
            simp only [List.length_cons]
            omega
          rw [harith, ih (idx + 1)]
          have hcond : idx + 1 < (idx + 1) + (b2 :: rs).length := by
            simp only [List.length_cons]
            omega
          simp [hcond, specPacedTrace]

/-- The paced trace contains exactly one pacing sleep per batch except the
last. -/
theorem specPacedTrace_count (project : String) (bs : List (List Page)) :
    (specPacedTrace project bs).count Ev.sleep1s = bs.length - 1 := by
  induction bs with
  | nil => simp [specPacedTrace]
  | cons b rest ih =>
      cases rest with
      | nil => simp [specPacedTrace]
      | cons b2 rs =>
          rw [specPacedTrace]
          rw [List.count_cons, List.count_cons, ih]
          simp

/-- The import calls of the paced trace are exactly the batches, in
order. -/
theorem specPacedTrace_filterMap (project : String)
    (bs : List (List Page)) :
    (specPacedTrace project bs).filterMap evBatch = bs := by
  induction bs with
  | nil => simp [specPacedTrace]
  | cons b rest ih =>
      cases rest with
      | nil => simp [specPacedTrace, evBatch]
      | cons b2 rs =>
          rw [specPacedTrace]
          rw [List.filterMap_cons, List.filterMap_cons, ih]
          simp [evBatch]

/-! C4 -/

/-- C4: for every run with a non-empty delta, the checkpoint is written at
the end of the run if and only if every one of the delta's batch imports
succeeds, and the value written is exactly the maximum `updated` timestamp
over the delta pages (`maxUpdated`). -/
theorem mainEffect_checkpoint (cfg : Config) (pages : List Page) (t : Int)
    (outcome : Nat → Option String)
    (hne : selectChanges (filterPrivateIconPages pages) t ≠ []) :
    (mainEffect cfg pages t outcome).written =
      if (List.range' 1
            (mkBatches (selectChanges (filterPrivateIconPages pages) t)
              BATCH_SIZE).length).all (fun n => (outcome n).isNone) = true
      then some (maxUpdated (selectChanges (filterPrivateIconPages pages) t))
      else none := by
  have hlen : (selectChanges (filterPrivateIconPages pages) t).length ≠ 0 := by
    simpa [List.length_eq_zero] using hne
  simp only [mainEffect, importPagesToProject, processBatchesEffect,
    if_neg hlen]
  have hiso := goBatches_isNone cfg.importingProjectName outcome
    (mkBatches (selectChanges (filterPrivateIconPages pages) t)
      BATCH_SIZE).length
    (mkBatches (selectChanges (filterPrivateIconPages pages) t) BATCH_SIZE) 0
  rw [Nat.zero_add] at hiso
  cases hsnd : (goBatches
      (importBatchStep cfg.importingProjectName outcome)
      (mkBatches (selectChanges (filterPrivateIconPages pages) t)
        BATCH_SIZE).length
      (mkBatches (selectChanges (filterPrivateIconPages pages) t)
        BATCH_SIZE) 0).2 with
  | some e =>
      rw [hsnd] at hiso
      simp only [Option.isNone_some] at hiso
      rw [if_neg (by rw [← hiso]; simp)]
  | none =>
      rw [hsnd] at hiso
      simp only [Option.isNone_none] at hiso
      rw [if_pos hiso.symm]

/-- C4 witness: the theorem applied to a one-page snapshot, watermark `0`,
and an all-success oracle. -/
theorem mainEffect_checkpoint_witness :
    selectChanges (filterPrivateIconPages [⟨"t", [], 5⟩]) 0 ≠ [] ∧
    (mainEffect ⟨"s", "a", "b"⟩ [⟨"t", [], 5⟩] 0
        (fun _ => none)).written =
      if (List.range' 1
            (mkBatches (selectChanges (filterPrivateIconPages [⟨"t", [], 5⟩]) 0)
              BATCH_SIZE).length).all
          (fun n => ((fun _ : Nat => (none : Option String)) n).isNone) = true
      then some (maxUpdated (selectChanges (filterPrivateIconPages [⟨"t", [], 5⟩]) 0))
      else none :=
  ⟨by decide, mainEffect_checkpoint ⟨"s", "a", "b"⟩ [⟨"t", [], 5⟩] 0
    (fun _ => none) (by decide)⟩

/-! C8 -/

/-- C8: whenever the delta computed in a run is empty, the run terminates
successfully performing no import-path I/O at all and writing no
checkpoint. -/
theorem mainEffect_empty_delta (cfg : Config) (pages : List Page) (t : Int)
    (outcome : Nat → Option String)
    (h : selectChanges (filterPrivateIconPages pages) t = []) :
    mainEffect cfg pages t outcome = ⟨[], none, none⟩ := by
  simp [mainEffect, h]

/-- C8 witness: the theorem applied to a snapshot whose only page is not
newer than the watermark. -/
theorem mainEffect_empty_delta_witness :
    selectChanges (filterPrivateIconPages [⟨"t", [], 5⟩]) 7 = [] ∧
    mainEffect ⟨"s", "a", "b"⟩ [⟨"t", [], 5⟩] 7 (fun _ => none) =
      ⟨[], none, none⟩ :=
  ⟨by decide, mainEffect_empty_delta ⟨"s", "a", "b"⟩ [⟨"t", [], 5⟩] 7
    (fun _ => none) (by decide)⟩

/-! C9 -/

/-- Folding binary `max` never goes below its starting point. -/
theorem le_foldl_max (xs : List Int) : ∀ a : Int, a ≤ xs.foldl max a := by
  induction xs with
  | nil => intro a; exact le_refl a
  | cons x xs ih =>
      intro a
      exact le_trans (le_max_left a x) (ih (max a x))

/-- C9: whenever a run writes a checkpoint value, that value is strictly
greater than the checkpoint value read at the start of the run — the
stored checkpoint never decreases across runs. -/
theorem mainEffect_written_monotone (cfg : Config) (pages : List Page)
    (t : Int) (outcome : Nat → Option String) (v : Int)
    (h : (mainEffect cfg pages t outcome).written = some v) : t < v := by
  by_cases hz : (selectChanges (filterPrivateIconPages pages) t).length = 0
  · simp [mainEffect, hz] at h
  · simp only [mainEffect, if_neg hz] at h
    set r := importPagesToProject cfg.importingProjectName
      (selectChanges (filterPrivateIconPages pages) t) cfg.sid outcome with hr
    cases hsnd : r.2 with
    | some e => rw [hsnd] at h; simp at h
    | none =>
        rw [hsnd] at h
        simp only [Option.some.injEq] at h
        have hne2 : selectChanges (filterPrivateIconPages pages) t ≠ [] := by
          intro hnil
          exact hz (by rw [hnil]; rfl)
        obtain ⟨p, ps, hcons⟩ := List.exists_cons_of_ne_nil hne2
        have hp : p ∈ selectChanges (filterPrivateIconPages pages) t := by
          rw [hcons]; exact List.mem_cons_self p ps
        have hpu : t < p.updated := by
          rw [selectChanges, List.mem_filter] at hp
          simpa using hp.2
        have hmax : p.updated ≤ maxUpdated
            (selectChanges (filterPrivateIconPages pages) t) := by
          rw [hcons, maxUpdated]
          exact le_foldl_max _ _
        omega

/-- C9 witness: a run whose delta is the single page with `updated = 5`
against watermark `0` writes `5 > 0`. -/
theorem mainEffect_written_monotone_witness :
    (mainEffect ⟨"s", "a", "b"⟩ [⟨"t", [], 5⟩] 0 (fun _ => none)).written =
      some 5 ∧ (0 : Int) < 5 :=
  ⟨by decide, mainEffect_written_monotone ⟨"s", "a", "b"⟩ [⟨"t", [], 5⟩] 0
    (fun _ => none) 5 (by decide)⟩

/-! C7 -/

/-- C7: with every remote import succeeding, the batch importer processes
the batches strictly sequentially in partition order — its trace is exactly
the paced trace: one import call per batch in order (`filterMap evBatch`
recovers the batch list), with a 1-second pacing sleep after each of the
first `k - 1` batches and none after the last (`k - 1` sleeps in total). -/
theorem importPagesToProject_pacing (project sid : String)
    (pages : List Page) (outcome : Nat → Option String)
    (hok : ∀ n, outcome n = none) :
    importPagesToProject project pages sid outcome =
      (specPacedTrace project (mkBatches pages BATCH_SIZE), none) ∧
    (specPacedTrace project (mkBatches pages BATCH_SIZE)).count Ev.sleep1s =
      (mkBatches pages BATCH_SIZE).length - 1 ∧
    (specPacedTrace project (mkBatches pages BATCH_SIZE)).filterMap evBatch =
      mkBatches pages BATCH_SIZE := by
  refine ⟨?_, specPacedTrace_count project _, specPacedTrace_filterMap project _⟩
  by_cases hz : pages.length = 0
  · have hempty : mkBatches pages BATCH_SIZE = [] := by
      simp [mkBatches, hz, BATCH_SIZE]
    simp [importPagesToProject, hz, hempty, specPacedTrace]
  · simp only [importPagesToProject, processBatchesEffect, if_neg hz]
    have := goBatches_all_ok project outcome hok
      (mkBatches pages BATCH_SIZE) 0
    rwa [Nat.zero_add] at this

/-- C7 witness: the theorem applied to a one-page list and the all-success
oracle. -/
theorem importPagesToProject_pacing_witness :
    (∀ n : Nat, (fun _ : Nat => (none : Option String)) n = none) ∧
    (importPagesToProject "b" [⟨"t", [], 5⟩] "s" (fun _ => none) =
        (specPacedTrace "b" (mkBatches [⟨"t", [], 5⟩] BATCH_SIZE), none) ∧
      (specPacedTrace "b" (mkBatches [(⟨"t", [], 5⟩ : Page)] BATCH_SIZE)).count
          Ev.sleep1s = (mkBatches [(⟨"t", [], 5⟩ : Page)] BATCH_SIZE).length - 1 ∧
      (specPacedTrace "b" (mkBatches [(⟨"t", [], 5⟩ : Page)] BATCH_SIZE)).filterMap
          evBatch = mkBatches [(⟨"t", [], 5⟩ : Page)] BATCH_SIZE) :=
  ⟨fun _ => rfl, importPagesToProject_pacing "b" "s" [⟨"t", [], 5⟩]
    (fun _ => none) (fun _ => rfl)⟩

/-! C10 -/

/-- C10: on the empty page list the batch importer returns successfully
with an empty I/O trace: no `importCall` event (hence no CSRF-token fetch
and no upload — both happen only inside an import call) and no pacing
sleep. -/
theorem importPagesToProject_emptyList (project sid : String)
    (outcome : Nat → Option String) :
    importPagesToProject project [] sid outcome = ([], none) := rfl

/-- C3 witness: the theorem applied to a two-page list (one at the
watermark, one above it) with watermark `3`. -/
theorem selectChanges_correct_witness :
    (selectChanges [⟨"a", [], 3⟩, ⟨"b", [], 4⟩] 3).Sublist
        [⟨"a", [], 3⟩, ⟨"b", [], 4⟩] ∧
    (∀ p, p ∈ selectChanges [⟨"a", [], 3⟩, ⟨"b", [], 4⟩] 3 ↔
      p ∈ ([⟨"a", [], 3⟩, ⟨"b", [], 4⟩] : List Page) ∧ 3 < p.updated) ∧
    (∀ p, List.count p (selectChanges [⟨"a", [], 3⟩, ⟨"b", [], 4⟩] 3) =
      if 3 < p.updated
      then List.count p ([⟨"a", [], 3⟩, ⟨"b", [], 4⟩] : List Page) else 0) ∧
    (∀ p ∈ ([⟨"a", [], 3⟩, ⟨"b", [], 4⟩] : List Page), p.updated = 3 →
      p ∉ selectChanges [⟨"a", [], 3⟩, ⟨"b", [], 4⟩] 3) ∧
    selectChanges (selectChanges [⟨"a", [], 3⟩, ⟨"b", [], 4⟩] 3) 3 =
      selectChanges [⟨"a", [], 3⟩, ⟨"b", [], 4⟩] 3 :=
  selectChanges_correct [⟨"a", [], 3⟩, ⟨"b", [], 4⟩] 3

/-- C5 witness: the theorem applied to a two-page list whose second page
carries the marker in its only line. -/
theorem filterPrivateIconPages_correct_witness :
    (filterPrivateIconPages
        [⟨"a", [⟨"hello", 0, 0⟩], 1⟩, ⟨"b", [⟨"x [private.icon]", 0, 0⟩], 2⟩]).Sublist
      [⟨"a", [⟨"hello", 0, 0⟩], 1⟩, ⟨"b", [⟨"x [private.icon]", 0, 0⟩], 2⟩] ∧
    (∀ p, p ∈ filterPrivateIconPages
        [⟨"a", [⟨"hello", 0, 0⟩], 1⟩, ⟨"b", [⟨"x [private.icon]", 0, 0⟩], 2⟩] ↔
      p ∈ ([⟨"a", [⟨"hello", 0, 0⟩], 1⟩,
        ⟨"b", [⟨"x [private.icon]", 0, 0⟩], 2⟩] : List Page) ∧
        ∀ line ∈ p.lines,
          ¬ ("[private.icon]".toList <:+: line.text.toList)) ∧
    (∀ p, (∃ line ∈ p.lines,
        "[private.icon]".toList <:+: line.text.toList) →
      p ∉ filterPrivateIconPages
        [⟨"a", [⟨"hello", 0, 0⟩], 1⟩, ⟨"b", [⟨"x [private.icon]", 0, 0⟩], 2⟩]) ∧
    (∀ p, List.count p (filterPrivateIconPages
        [⟨"a", [⟨"hello", 0, 0⟩], 1⟩, ⟨"b", [⟨"x [private.icon]", 0, 0⟩], 2⟩]) =
      if ∀ line ∈ p.lines, ¬ ("[private.icon]".toList <:+: line.text.toList)
      then List.count p ([⟨"a", [⟨"hello", 0, 0⟩], 1⟩,
        ⟨"b", [⟨"x [private.icon]", 0, 0⟩], 2⟩] : List Page) else 0) :=
  filterPrivateIconPages_correct
    [⟨"a", [⟨"hello", 0, 0⟩], 1⟩, ⟨"b", [⟨"x [private.icon]", 0, 0⟩], 2⟩]

/-- C10 witness: the theorem applied to concrete project, session and
oracle. -/
theorem importPagesToProject_emptyList_witness :
    importPagesToProject "b" [] "s" (fun _ => none) = ([], none) :=
  importPagesToProject_emptyList "b" "s" (fun _ => none)

/-! C1 -/

/-- A 101-page snapshot (updated 1..101), which partitions into two batches
of 100 and 1 pages at `BATCH_SIZE = 100`. -/
def pages101 : List Page :=
  (List.range 101).map (fun i => ⟨"p", [], (i : Int) + 1⟩)

/-- An import oracle under which the first batch's remote import fails and
every later one succeeds. -/
def failFirstBatch : Nat → Option String :=
  fun n => if n = 1 then some "Import failed: 500" else none

/-- C1: evaluation of the Deno variant's run (src/unnamed/part_000) at a
concrete failing input. With 101 delta pages (two batches) and batch 1
failing to import, the run still issues the import call for batch 2 after the
failure, surfaces no error at all — the annotated
`(batch 1/2)` error object is `return`ed instead of thrown inside the
async reduce, so it is swallowed — and advances the checkpoint to 101.
This contradicts the claim on all three counts: a batch after the failing
one is attempted, the checkpoint is advanced, and no failure carrying the
batch ordinal and total reaches the caller. -/
theorem part000Main_swallows_batch_failure :
    part000Main ⟨"sid", "src", "dest"⟩ pages101 0 failFirstBatch =
      ⟨[Ev.importCall "dest" (pages101.take 100),
        Ev.importCall "dest" (pages101.drop 100)], none, some 101⟩ := by
  set_option maxRecDepth 8000 in decide

/-! C6 -/

/-- C6 counterexample: a checkpoint file whose content is unparsable does
not yield the default and persists nothing. `parseInt` never throws — it
returns NaN on such content — so the `catch` recovery branch of
`getLastImportTime` is not taken: the call returns NaN (`none`) and
performs no checkpoint write. -/
theorem getLastImportTime_unparsable_no_recovery :
    ¬ ((getLastImportTime (some "garbage")).1 = some INITIAL_IMPORT_TIME ∧
       (getLastImportTime (some "garbage")).2 = some INITIAL_IMPORT_TIME) := by
  decide

/-- C6 amended: only when the checkpoint file read itself fails (the file
is absent) is the read recovered: it yields the fixed default `1745842021`
and persists that default immediately. When the file is readable but its
content is unparsable, the read instead yields NaN and persists nothing. -/
theorem getLastImportTime_amended (s : String) (h : parseIntJS s = none) :
    getLastImportTime none =
        (some INITIAL_IMPORT_TIME, some INITIAL_IMPORT_TIME) ∧
      getLastImportTime (some s) = (none, none) :=
  ⟨rfl, by simp [getLastImportTime, h]⟩

/-- C6 witness: the amended theorem applied to the unparsable content
`"not a timestamp"`. -/
theorem getLastImportTime_amended_witness :
    parseIntJS "not a timestamp" = none ∧
    (getLastImportTime none =
        (some INITIAL_IMPORT_TIME, some INITIAL_IMPORT_TIME) ∧
      getLastImportTime (some "not a timestamp") = (none, none)) :=
  ⟨by decide, getLastImportTime_amended "not a timestamp" (by decide)⟩

end ScrapboxDup
